import Mathlib

/-!
Shallow embedding of `src/minesweeper.py` (classes `Sentence` and
`MinesweeperAI`) and verification of the specification's claims about it.

Conventions of the embedding:
* a Python board cell (a tuple of two ints) is `Cell := ℤ × ℤ`;
* Python `set` becomes `Finset Cell`; adding/discarding/difference of
  distinct elements is order-independent, so iterations such as
  `for mine in self.mines: sen.mark_mine(mine)` are embedded by their
  set-level effect;
* Python `int` becomes `ℤ` (counts may go negative in the source, e.g.
  `check_neighbors` decrements the count below zero for corrupt input);
* in-place mutation of the AI object becomes explicit state passing on
  the structure `MinesweeperAI`.
-/

/-- A board coordinate, Python tuple `(i, j)`. -/
abbrev Cell : Type := ℤ × ℤ

/-- Class `Sentence`: a set of cells together with the number of them that
are mines (`self.cells`, `self.count`). -/
structure Sentence where
  cells : Finset Cell
  count : ℤ

instance : DecidableEq Sentence := fun a b =>
  decidable_of_iff (a.cells = b.cells ∧ a.count = b.count)
    (by cases a; cases b; simp)

namespace Sentence

/-- `Sentence.known_mines`: returns `self.cells` when `count != 0` and
`len(self.cells) == self.count`; otherwise the Python function falls off the
end (or takes the `count == 0` branch) and returns `None`, embedded as
`none`. -/
def known_mines (s : Sentence) : Option (Finset Cell) :=
  if s.count = 0 then none
  else if (s.cells.card : ℤ) = s.count then some s.cells
  else none

/-- `Sentence.known_safes`: returns `None` when `len(self.cells) == self.count`,
else returns `self.cells` when `count == 0`, else falls off the end
(`None`). -/
def known_safes (s : Sentence) : Option (Finset Cell) :=
  if (s.cells.card : ℤ) = s.count then none
  else if s.count = 0 then some s.cells
  else none

/-- `Sentence.mark_mine`: if the cell is in `self.cells`, discard it and
decrement `self.count`; otherwise do nothing. -/
def mark_mine (s : Sentence) (c : Cell) : Sentence :=
  if c ∈ s.cells then ⟨s.cells.erase c, s.count - 1⟩ else s

/-- `Sentence.mark_safe`: discard the cell from `self.cells` (no count
change); `discard` is a no-op when the cell is absent. -/
def mark_safe (s : Sentence) (c : Cell) : Sentence :=
  ⟨s.cells.erase c, s.count⟩

end Sentence

/-- Class `MinesweeperAI`: the knowledge-base state
(`height`, `width`, `moves_made`, `mines`, `safes`, `knowledge`). -/
structure MinesweeperAI where
  height : ℤ
  width : ℤ
  moves_made : Finset Cell
  mines : Finset Cell
  safes : Finset Cell
  knowledge : List Sentence

instance : DecidableEq MinesweeperAI := fun a b =>
  decidable_of_iff (a.height = b.height ∧ a.width = b.width ∧
      a.moves_made = b.moves_made ∧ a.mines = b.mines ∧ a.safes = b.safes ∧
      a.knowledge = b.knowledge)
    (by cases a; cases b; simp)

namespace MinesweeperAI

/-- `MinesweeperAI.__init__(height, width)`: empty sets, empty knowledge. -/
def init (height width : ℤ) : MinesweeperAI :=
  ⟨height, width, ∅, ∅, ∅, []⟩

/-- `MinesweeperAI.mark_mine`: add to `self.mines` and apply
`Sentence.mark_mine` to every sentence of the knowledge base. -/
def ai_mark_mine (s : MinesweeperAI) (c : Cell) : MinesweeperAI :=
  { s with mines := insert c s.mines,
           knowledge := s.knowledge.map (fun sen => sen.mark_mine c) }

/-- `MinesweeperAI.mark_safe`: add to `self.safes` and apply
`Sentence.mark_safe` to every sentence of the knowledge base. -/
def ai_mark_safe (s : MinesweeperAI) (c : Cell) : MinesweeperAI :=
  { s with safes := insert c s.safes,
           knowledge := s.knowledge.map (fun sen => sen.mark_safe c) }

end MinesweeperAI

/-- The list `neighborArr` of `check_neighbors`, in source order:
topLeft, top, topRight, rightCenter, bottomRight, bottom, bottomLeft,
leftCenter of `(x, y)`. -/
def neighborArr (c : Cell) : List Cell :=
  [(c.1 - 1, c.2 - 1), (c.1 - 1, c.2), (c.1 - 1, c.2 + 1), (c.1, c.2 + 1),
   (c.1 + 1, c.2 + 1), (c.1 + 1, c.2), (c.1 + 1, c.2 - 1), (c.1, c.2 - 1)]

/-- Bounds test `neighbor[0] in range(self.height) and neighbor[1] in
range(self.width)`. -/
def inRange (height width : ℤ) (c : Cell) : Prop :=
  0 ≤ c.1 ∧ c.1 < height ∧ 0 ≤ c.2 ∧ c.2 < width

instance (height width : ℤ) (c : Cell) : Decidable (inRange height width c) :=
  inferInstanceAs (Decidable (0 ≤ c.1 ∧ c.1 < height ∧ 0 ≤ c.2 ∧ c.2 < width))

/-- The body of the `for neighbor in neighborArr` loop of
`MinesweeperAI.check_neighbors`: for an in-bounds neighbor, add it to the
result set when it is in neither `self.safes` nor `self.mines`, and
decrement the count when it is in `self.mines`. -/
def cn_step (height width : ℤ) (mines safes : Finset Cell)
    (acc : Finset Cell × ℤ) (n : Cell) : Finset Cell × ℤ :=
  if inRange height width n then
    (if n ∉ safes ∧ n ∉ mines then insert n acc.1 else acc.1,
     if n ∈ mines then acc.2 - 1 else acc.2)
  else acc

/-- `MinesweeperAI.check_neighbors(cell, count)`: loop over `neighborArr`
applying `cn_step`; returns the `{'cells': ..., 'count': ...}` pair. -/
def check_neighbors (height width : ℤ) (mines safes : Finset Cell)
    (cell : Cell) (count : ℤ) : Finset Cell × ℤ :=
  (neighborArr cell).foldl (cn_step height width mines safes) (∅, count)

/-- One iteration of the first loop of `add_knowledge`
(`for i in range(len(self.knowledge))`, source lines 249-270) acting on
`sen = self.knowledge[i]` with the current `mines` and `safes`:
`sen.mark_safe(cell)`; then `for mine in sen.known_mines(): self.mines.add(mine)`
(a `None` result raises `TypeError`, caught and ignored); then the same for
`sen.known_safes()` into `self.safes`; then
`for mine in self.mines: sen.mark_mine(mine)`, whose set-level effect is to
remove `self.mines` from the cells and subtract the number removed from the
count.  Each iteration reads and writes only `self.knowledge[i]`, `self.mines`
and `self.safes`, so the loop is embedded as structural recursion over the
list. -/
def infer_loop (cell : Cell) :
    List Sentence → Finset Cell → Finset Cell →
      List Sentence × Finset Cell × Finset Cell
  | [], mines, safes => ([], mines, safes)
  | sen :: rest, mines, safes =>
      let s1 := sen.mark_safe cell
      let mines1 := mines ∪ (s1.known_mines.getD ∅)
      let safes1 := safes ∪ (s1.known_safes.getD ∅)
      let s2 : Sentence :=
        ⟨s1.cells \ mines1, s1.count - ((s1.cells ∩ mines1).card : ℤ)⟩
      let r := infer_loop cell rest mines1 safes1
      (s2 :: r.1, r.2)

/-- `bool(vars(sen))` on line 292: `vars(sen)` is the attribute dictionary
`{'cells': ..., 'count': ...}`, which is never empty, so the test
`not bool(vars(sen))` is always false. -/
def vars_empty (_ : Sentence) : Bool := false

/-- The purge loop of `add_knowledge` (source lines 275-294): scan the
knowledge base in order; at the first sentence with `count == 0` fold its
cells into `safes`, delete it and `break`; at the first sentence with
`len(cells) == count` add the *observed* `cell` (the function parameter,
line 289) to `mines`, delete it and `break`; the `not bool(vars(sen))`
branch never fires.  At most one sentence is deleted because every branch
ends in `break`. -/
def purge_loop (cell : Cell) :
    List Sentence → Finset Cell → Finset Cell →
      List Sentence × Finset Cell × Finset Cell
  | [], mines, safes => ([], mines, safes)
  | sen :: rest, mines, safes =>
      if sen.count = 0 then (rest, mines, safes ∪ sen.cells)
      else if (sen.cells.card : ℤ) = sen.count then
        (rest, insert cell mines, safes)
      else if vars_empty sen then (rest, mines, safes)
      else
        let r := purge_loop cell rest mines safes
        (sen :: r.1, r.2)

/-- One iteration of the inner `for sen2 in KBcopy` loop of the
subset-resolution step (source lines 310-326): if `sen1.cells ⊆ sen2.cells`
(note: non-strict `issubset`) derive
`(sen2.cells - sen1.cells, sen2.count - sen1.count)`, else if
`sen2.cells ⊆ sen1.cells` derive the opposite difference; append the derived
sentence to the live knowledge base when it is non-empty and not already
present (`newSen not in self.knowledge`, value equality). -/
def subset_pair (sen1 sen2 : Sentence) (kb : List Sentence) : List Sentence :=
  if sen1.cells ⊆ sen2.cells then
    let newSen : Sentence := ⟨sen2.cells \ sen1.cells, sen2.count - sen1.count⟩
    if newSen.cells ≠ ∅ ∧ newSen ∉ kb then kb ++ [newSen] else kb
  else if sen2.cells ⊆ sen1.cells then
    let newSen : Sentence := ⟨sen1.cells \ sen2.cells, sen1.count - sen2.count⟩
    if newSen.cells ≠ ∅ ∧ newSen ∉ kb then kb ++ [newSen] else kb
  else kb

/-- Iterating `subset_pair` over `kbcopy` front to back, threading the live
knowledge base. -/
def subset_inner (sen1 : Sentence) : List Sentence → List Sentence → List Sentence
  | [], knowledge => knowledge
  | sen2 :: rest, knowledge => subset_inner sen1 rest (subset_pair sen1 sen2 knowledge)

/-- The outer `while len(KBcopy) > 0` loop (source lines 300-327):
`KBcopy.pop()` removes and returns the *last* element, so the loop is
embedded as recursion over the reversed copy; a popped `sen1` with empty
cells or zero count is skipped, otherwise it is compared against the
remaining copy (`rest`, in original front-to-back order, hence
`rest.reverse`). -/
def subset_outer : List Sentence → List Sentence → List Sentence
  | [], kb => kb
  | sen1 :: restRev, kb =>
      let kb' := if sen1.cells = ∅ ∨ sen1.count = 0 then kb
                 else subset_inner sen1 restRev.reverse kb
      subset_outer restRev kb'

/-- The whole subset-resolution step: `KBcopy = copy.deepcopy(self.knowledge)`
(value semantics make the deep copy implicit) followed by the pop loop. -/
def subset_step (knowledge : List Sentence) : List Sentence :=
  subset_outer knowledge.reverse knowledge

namespace MinesweeperAI

/-- `MinesweeperAI.add_knowledge(cell, count)` (source lines 223-326):
1. `self.moves_made.add(cell)`;
2. `self.mark_safe(cell)` (adds to `safes` and erases `cell` from every
   sentence);
3. `check_neighbors(cell, count)`; append the resulting sentence when its
   cell set is non-empty;
4. the inference loop over the knowledge base (`infer_loop`);
5. the purge loop (`purge_loop`);
6. the subset-resolution step (`subset_step`).
The function performs no validation of `count`. -/
def add_knowledge (s : MinesweeperAI) (cell : Cell) (count : ℤ) :
    MinesweeperAI :=
  let moves := insert cell s.moves_made
  let s0 := s.ai_mark_safe cell
  let nr := check_neighbors s.height s.width s0.mines s0.safes cell count
  let kb1 := if nr.1 ≠ ∅ then s0.knowledge ++ [⟨nr.1, nr.2⟩] else s0.knowledge
  let r1 := infer_loop cell kb1 s0.mines s0.safes
  let r2 := purge_loop cell r1.1 r1.2.1 r1.2.2
  let kb4 := subset_step r2.1
  ⟨s.height, s.width, moves, r2.2.1, r2.2.2, kb4⟩

/-- `MinesweeperAI.make_random_move()`: the body of `while True` returns on
its first iteration in both branches, so the loop draws a single random cell
`(i, j)` (with `random.randint(0, self.height - 1)` and
`random.randint(0, self.width - 1)`); the draw is passed in explicitly as
the pair `(i, j)`.  The sampled cell is returned when it is in neither
`self.moves_made` nor `self.mines`; otherwise the `else` branch returns
`None` immediately. -/
def make_random_move (s : MinesweeperAI) (i j : ℤ) : Option Cell :=
  if (i, j) ∉ s.moves_made ∧ (i, j) ∉ s.mines then some (i, j) else none

end MinesweeperAI

/-- The external board collaborator, class `Minesweeper`: `self.height`,
`self.width` and the mine set (`self.board[i][j]` is true exactly for the
cells of `self.mines`). -/
structure Minesweeper where
  height : ℤ
  width : ℤ
  mines : Finset Cell

/-- `Minesweeper.nearby_mines(cell)`: the number of in-bounds cells within
one row and column of `cell` (the cell itself excluded) that hold a mine.
The source iterates the 3-by-3 box around the cell and skips `(i, j) == cell`;
the remaining eight positions are exactly `neighborArr cell`, so the count is
taken over that list. -/
def nearby_mines (b : Minesweeper) (c : Cell) : ℤ :=
  ((neighborArr c).filter
    (fun n => decide (inRange b.height b.width n) && decide (n ∈ b.mines))).length

/-- Running a whole game session: fold `add_knowledge` over a list of
observations starting from `MinesweeperAI.__init__(height, width)`. -/
def observe_all (height width : ℤ) (obs : List (Cell × ℤ)) : MinesweeperAI :=
  obs.foldl (fun s ck => s.add_knowledge ck.1 ck.2) (MinesweeperAI.init height width)

/-- A sentence is consistent with the mine set `M` when its count is exactly
the number of its cells that lie in `M` (the meaning "exactly `count` of
`cells` are mines"). -/
def consistent (M : Finset Cell) (s : Sentence) : Prop :=
  s.count = ((s.cells ∩ M).card : ℤ)

instance (M : Finset Cell) (s : Sentence) : Decidable (consistent M s) :=
  inferInstanceAs (Decidable (s.count = ((s.cells ∩ M).card : ℤ)))

section SentenceClaims

/-- Helper: `Sentence.mark_mine` applied twice with the same cell equals one
application. -/
theorem mark_mine_twice (s : Sentence) (c : Cell) :
    (s.mark_mine c).mark_mine c = s.mark_mine c := by
  unfold Sentence.mark_mine
  by_cases h : c ∈ s.cells <;> simp [h]

/-- Helper: `Sentence.mark_safe` applied twice with the same cell equals one
application. -/
theorem mark_safe_twice (s : Sentence) (c : Cell) :
    (s.mark_safe c).mark_safe c = s.mark_safe c := by
  simp [Sentence.mark_safe, Finset.erase_idem]

/-- C7 counterexample: the claim says `knownSafes()` returns the cell set
exactly when `count == 0`; on the empty sentence with count 0 the code takes
the `len(self.cells) == self.count` branch first and returns `None`, so the
biconditional fails. -/
theorem c7_counterexample :
    ¬ ((Sentence.known_safes ⟨∅, 0⟩ = some (∅ : Finset Cell)) ↔
        (Sentence.count ⟨∅, 0⟩ = 0)) := by
  decide

/-- C7 amended: `knownMines()` returns the cell set exactly when
`count == |cells|` and `|cells| > 0` (never for a `count == 0` statement),
`knownSafes()` returns the cell set exactly when `count == 0` *and the cell
set is non-empty*; in every other case each returns `None`, and neither ever
returns anything other than the cell set. -/
theorem c7_known_mines_safes_characterization (s : Sentence) :
    (s.known_mines = some s.cells ↔ ((s.cells.card : ℤ) = s.count ∧ 0 < s.cells.card))
    ∧ (¬ ((s.cells.card : ℤ) = s.count ∧ 0 < s.cells.card) → s.known_mines = none)
    ∧ (∀ X, s.known_mines = some X → X = s.cells)
    ∧ (s.known_safes = some s.cells ↔ (s.count = 0 ∧ s.cells ≠ ∅))
    ∧ (¬ (s.count = 0 ∧ s.cells ≠ ∅) → s.known_safes = none)
    ∧ (∀ X, s.known_safes = some X → X = s.cells) := by
  have hm : s.known_mines = some s.cells ↔ (s.count ≠ 0 ∧ (s.cells.card : ℤ) = s.count) := by
    unfold Sentence.known_mines
    split_ifs with h1 h2 <;> simp_all
  have hmn : s.known_mines = none ↔ ¬ (s.count ≠ 0 ∧ (s.cells.card : ℤ) = s.count) := by
    unfold Sentence.known_mines
    split_ifs with h1 h2 <;> simp_all
  have hmx : ∀ X, s.known_mines = some X → X = s.cells := by
    unfold Sentence.known_mines
    split_ifs <;> simp_all
  have hsf : s.known_safes = some s.cells ↔ (¬ (s.cells.card : ℤ) = s.count ∧ s.count = 0) := by
    unfold Sentence.known_safes
    split_ifs with h1 h2 <;> simp_all
  have hsn : s.known_safes = none ↔ ¬ (¬ (s.cells.card : ℤ) = s.count ∧ s.count = 0) := by
    unfold Sentence.known_safes
    split_ifs with h1 h2 <;> simp_all
  have hsx : ∀ X, s.known_safes = some X → X = s.cells := by
    unfold Sentence.known_safes
    split_ifs <;> simp_all
  have hcard : s.cells ≠ ∅ ↔ s.cells.card ≠ 0 := by
    simp [Finset.card_eq_zero]
  refine ⟨?_, ?_, hmx, ?_, ?_, hsx⟩
  · rw [hm]; omega
  · intro h; rw [hmn]; omega
  · rw [hsf, hcard]; omega
  · intro h; rw [hsn]; rw [hcard] at h; omega

/-- C7 witness: the amended characterization evaluated on the concrete
all-mine statement `{(0,0)} = 1`. -/
theorem c7_witness :
    ((Sentence.known_mines ⟨{((0 : ℤ), (0 : ℤ))}, 1⟩ =
        some (Sentence.cells ⟨{((0 : ℤ), (0 : ℤ))}, 1⟩)) ↔
      (((Sentence.cells ⟨{((0 : ℤ), (0 : ℤ))}, 1⟩).card : ℤ) =
          Sentence.count ⟨{((0 : ℤ), (0 : ℤ))}, 1⟩ ∧
        0 < (Sentence.cells ⟨{((0 : ℤ), (0 : ℤ))}, 1⟩).card)) :=
  (c7_known_mines_safes_characterization ⟨{((0 : ℤ), (0 : ℤ))}, 1⟩).1

/-- C8 counterexample: starting from the internally valid statement
`{(0,0)} = 0`, a single `mark_mine((0,0))` call produces the statement
`{} = -1`, violating `0 ≤ count`. -/
theorem c8_counterexample :
    ¬ (0 ≤ (Sentence.mark_mine ⟨{((0 : ℤ), (0 : ℤ))}, 0⟩ ((0 : ℤ), (0 : ℤ))).count) := by
  decide

/-- Applying a list of mark operations to a sentence: `(true, c)` is
`mark_mine(c)`, `(false, c)` is `mark_safe(c)`. -/
def apply_marks (s : Sentence) (ops : List (Bool × Cell)) : Sentence :=
  ops.foldl (fun t p => if p.1 then t.mark_mine p.2 else t.mark_safe p.2) s

/-- Helper: a truthful `mark_mine` preserves consistency with `M`. -/
theorem consistent_mark_mine {M : Finset Cell} {s : Sentence} {c : Cell}
    (hc : c ∈ M) (h : consistent M s) : consistent M (s.mark_mine c) := by
  unfold consistent Sentence.mark_mine at *
  by_cases hmem : c ∈ s.cells
  · have hin : c ∈ s.cells ∩ M := Finset.mem_inter.mpr ⟨hmem, hc⟩
    have : (s.cells.erase c) ∩ M = (s.cells ∩ M).erase c := by
      ext x; simp [Finset.mem_erase, Finset.mem_inter, and_assoc]
    simp only [hmem, if_pos]
    rw [this, Finset.card_erase_of_mem hin]
    have hpos : 0 < (s.cells ∩ M).card := Finset.card_pos.mpr ⟨c, hin⟩
    push_cast [Nat.cast_sub (Nat.one_le_iff_ne_zero.mpr (Nat.pos_iff_ne_zero.mp hpos))]
    omega
  · simpa [hmem] using h

/-- Helper: a truthful `mark_safe` preserves consistency with `M`. -/
theorem consistent_mark_safe {M : Finset Cell} {s : Sentence} {c : Cell}
    (hc : c ∉ M) (h : consistent M s) : consistent M (s.mark_safe c) := by
  unfold consistent Sentence.mark_safe at *
  have : (s.cells.erase c) ∩ M = s.cells ∩ M := by
    ext x
    simp only [Finset.mem_inter, Finset.mem_erase]
    constructor
    · rintro ⟨⟨-, h1⟩, h2⟩; exact ⟨h1, h2⟩
    · rintro ⟨h1, h2⟩
      exact ⟨⟨fun hx => hc (hx ▸ h2), h1⟩, h2⟩
  rw [this]; exact h

/-- Helper: a consistent sentence satisfies `0 ≤ count ≤ |cells|`. -/
theorem consistent_bounds {M : Finset Cell} {s : Sentence}
    (h : consistent M s) : 0 ≤ s.count ∧ s.count ≤ (s.cells.card : ℤ) := by
  unfold consistent at h
  have h2 : s.cells ∩ M ⊆ s.cells := Finset.inter_subset_left
  have := Finset.card_le_card h2
  omega

/-- C8 amended: for every statement consistent with a mine set `M`
(`count` equals the number of its cells in `M`), after any sequence of
`mark_mine` calls on cells of `M` and `mark_safe` calls on cells outside
`M`, the statement is again consistent with `M` and satisfies
`0 ≤ count ≤ |cells|`. -/
theorem c8_truthful_marks_keep_invariant (M : Finset Cell) (s : Sentence)
    (ops : List (Bool × Cell)) (hs : consistent M s)
    (hops : ∀ p ∈ ops, (p.1 = true → p.2 ∈ M) ∧ (p.1 = false → p.2 ∉ M)) :
    consistent M (apply_marks s ops) ∧
      0 ≤ (apply_marks s ops).count ∧
      (apply_marks s ops).count ≤ ((apply_marks s ops).cells.card : ℤ) := by
  have main : consistent M (apply_marks s ops) := by
    induction ops generalizing s with
    | nil => exact hs
    | cons p rest ih =>
        have hp := hops p (List.mem_cons_self p rest)
        have hstep : consistent M (if p.1 then s.mark_mine p.2 else s.mark_safe p.2) := by
          cases hb : p.1
          · simpa [hb] using consistent_mark_safe (hp.2 hb) hs
          · simpa [hb] using consistent_mark_mine (hp.1 hb) hs
        exact ih _ hstep (fun q hq => hops q (List.mem_cons_of_mem p hq))
  exact ⟨main, (consistent_bounds main).1, (consistent_bounds main).2⟩

/-- C8 witness: the statement `{(0,0),(0,1)} = 1` is consistent with the
mine set `{(0,0)}`; marking `(0,0)` a mine and `(0,1)` safe keeps
`0 ≤ count ≤ |cells|`. -/
theorem c8_witness :
    consistent {((0 : ℤ), (0 : ℤ))} (apply_marks ⟨{((0 : ℤ), (0 : ℤ)), ((0 : ℤ), (1 : ℤ))}, 1⟩
        [(true, ((0 : ℤ), (0 : ℤ))), (false, ((0 : ℤ), (1 : ℤ)))]) ∧
      0 ≤ (apply_marks ⟨{((0 : ℤ), (0 : ℤ)), ((0 : ℤ), (1 : ℤ))}, 1⟩
        [(true, ((0 : ℤ), (0 : ℤ))), (false, ((0 : ℤ), (1 : ℤ)))]).count ∧
      (apply_marks ⟨{((0 : ℤ), (0 : ℤ)), ((0 : ℤ), (1 : ℤ))}, 1⟩
        [(true, ((0 : ℤ), (0 : ℤ))), (false, ((0 : ℤ), (1 : ℤ)))]).count ≤
        ((apply_marks ⟨{((0 : ℤ), (0 : ℤ)), ((0 : ℤ), (1 : ℤ))}, 1⟩
        [(true, ((0 : ℤ), (0 : ℤ))), (false, ((0 : ℤ), (1 : ℤ)))]).cells.card : ℤ) :=
  c8_truthful_marks_keep_invariant {((0 : ℤ), (0 : ℤ))}
    ⟨{((0 : ℤ), (0 : ℤ)), ((0 : ℤ), (1 : ℤ))}, 1⟩
    [(true, ((0 : ℤ), (0 : ℤ))), (false, ((0 : ℤ), (1 : ℤ)))]
    (by decide) (by decide)

/-- C10: the knowledge-base-level mark operations are idempotent: a second
`MinesweeperAI.mark_mine(cell)` (resp. `mark_safe(cell)`) with the same cell
leaves the whole state — confirmed sets and every sentence's cells and
count — identical to the state after the first call. -/
theorem c10_mark_idempotent (s : MinesweeperAI) (c : Cell) :
    (s.ai_mark_mine c).ai_mark_mine c = s.ai_mark_mine c ∧
      (s.ai_mark_safe c).ai_mark_safe c = s.ai_mark_safe c := by
  have hkm : (s.knowledge.map (fun sen => sen.mark_mine c)).map
      (fun sen => sen.mark_mine c) = s.knowledge.map (fun sen => sen.mark_mine c) := by
    rw [List.map_map]
    apply List.map_congr_left
    intro sen _
    exact mark_mine_twice sen c
  have hks : (s.knowledge.map (fun sen => sen.mark_safe c)).map
      (fun sen => sen.mark_safe c) = s.knowledge.map (fun sen => sen.mark_safe c) := by
    rw [List.map_map]
    apply List.map_congr_left
    intro sen _
    exact mark_safe_twice sen c
  constructor
  · unfold MinesweeperAI.ai_mark_mine
    simp [Finset.insert_idem, hkm]
  · unfold MinesweeperAI.ai_mark_safe
    simp [Finset.insert_idem, hks]

end SentenceClaims

section ObserveHelpers

/-- Helper: the inference loop only adds to `safes`. -/
theorem infer_loop_safes_mono (cell : Cell) :
    ∀ (l : List Sentence) (mines safes : Finset Cell),
      safes ⊆ (infer_loop cell l mines safes).2.2 := by
  intro l
  induction l with
  | nil => intro mines safes; simp [infer_loop]
  | cons sen rest ih =>
      intro mines safes
      simp only [infer_loop]
      exact subset_trans Finset.subset_union_left (ih _ _)

/-- Helper: the purge loop only adds to `safes`. -/
theorem purge_loop_safes_mono (cell : Cell) :
    ∀ (l : List Sentence) (mines safes : Finset Cell),
      safes ⊆ (purge_loop cell l mines safes).2.2 := by
  intro l
  induction l with
  | nil => intro mines safes; simp [purge_loop]
  | cons sen rest ih =>
      intro mines safes
      simp only [purge_loop]
      split_ifs with h1 h2 h3
      · exact Finset.subset_union_left
      · exact subset_refl _
      · exact subset_refl _
      · exact ih mines safes

/-- Helper: `add_knowledge` records the observed cell in `moves_made` and in
`safes`, whatever the count. -/
theorem add_knowledge_records (s : MinesweeperAI) (cell : Cell) (count : ℤ) :
    (s.add_knowledge cell count).moves_made = insert cell s.moves_made ∧
      cell ∈ (s.add_knowledge cell count).safes := by
  unfold MinesweeperAI.add_knowledge
  refine ⟨rfl, ?_⟩
  refine Finset.mem_of_subset (purge_loop_safes_mono cell _ _ _) ?_
  refine Finset.mem_of_subset (infer_loop_safes_mono cell _ _ _) ?_
  exact Finset.mem_insert_self cell s.safes

end ObserveHelpers

section ObserveClaims

/-- C2 counterexample: `add_knowledge` has no `InvalidObservation` path; the
claim's requirement that the state be left unchanged for an out-of-range
count fails: observing `(0, 1)` with `count = -1` on a fresh 1-by-3 AI
changes the state (the cell joins `moves_made` and `safes`). -/
theorem c2_counterexample :
    (MinesweeperAI.init 1 3).add_knowledge ((0 : ℤ), (1 : ℤ)) (-1) ≠
      MinesweeperAI.init 1 3 := by
  decide

/-- C2 amended: `add_knowledge` performs no validation of `count`: for every
state, cell and count — in range or not — the call is processed normally,
the cell joins `moves_made` and `confirmedSafe`; no rejection exists in the
code. -/
theorem c2_no_validation (s : MinesweeperAI) (cell : Cell) (count : ℤ) :
    (s.add_knowledge cell count).moves_made = insert cell s.moves_made ∧
      cell ∈ (s.add_knowledge cell count).safes :=
  add_knowledge_records s cell count

/-- C3: after the two observations `((0,1), 1)` then `((0,0), 1)` on a
2-by-3 board (both counts truthful for a mine at `(1,0)`), `add_knowledge`
returns with the statement `{(0,2),(1,2)} = 0` still live: the purge deletes
at most one statement per call and is never re-run after subset resolution,
so the claim that no `count == 0` statement remains is violated by the
code. -/
theorem c3_purge_not_exhaustive :
    (⟨{((0 : ℤ), (2 : ℤ)), ((1 : ℤ), (2 : ℤ))}, 0⟩ : Sentence) ∈
      (observe_all 2 3 [(((0 : ℤ), (1 : ℤ)), 1), (((0 : ℤ), (0 : ℤ)), 1)]).knowledge := by
  decide

/-- C4 counterexample: observing `((0,0), 1)` twice (after `((0,1), 1)`) is
not the same as observing it once: the repeated call re-appends a duplicate
of the live statement `{(1,0),(1,1)} = 1` and enlarges `confirmedSafe`, so
the claimed idempotence of `observe` fails. -/
theorem c4_counterexample :
    ¬ ((observe_all 2 3 [(((0 : ℤ), (1 : ℤ)), 1), (((0 : ℤ), (0 : ℤ)), 1),
          (((0 : ℤ), (0 : ℤ)), 1)]).safes =
        (observe_all 2 3 [(((0 : ℤ), (1 : ℤ)), 1), (((0 : ℤ), (0 : ℤ)), 1)]).safes ∧
      (observe_all 2 3 [(((0 : ℤ), (1 : ℤ)), 1), (((0 : ℤ), (0 : ℤ)), 1),
          (((0 : ℤ), (0 : ℤ)), 1)]).knowledge.length =
        (observe_all 2 3 [(((0 : ℤ), (1 : ℤ)), 1), (((0 : ℤ), (0 : ℤ)), 1)]).knowledge.length) := by
  decide

/-- C4 amended: calling `observe(cell, count)` twice with the same arguments
leaves `movesMade` identical to calling it once; `confirmedSafe`,
`confirmedMine` and the statement collection need not be preserved. -/
theorem c4_moves_made_idempotent (s : MinesweeperAI) (cell : Cell) (count : ℤ) :
    ((s.add_knowledge cell count).add_knowledge cell count).moves_made =
      (s.add_knowledge cell count).moves_made := by
  have h1 := (add_knowledge_records s cell count).1
  have h2 := (add_knowledge_records (s.add_knowledge cell count) cell count).1
  rw [h2, h1, Finset.insert_idem]

/-- C6: honest scenario on a 2-by-3 board with a mine at `(1,2)`:
after `observe((0,1), 1)` then `observe((0,0), 0)` the call returns with the
live statement `{(0,2),(1,0),(1,1),(1,2)} = 1` whose cells `(1,0)` and
`(1,1)` are in `confirmedSafe`: the code adds inferred safes with
`self.safes.add` instead of the propagating `mark_safe`, so statements
retain confirmed cells after the pass completes, contradicting the claim. -/
theorem c6_stale_safe_cells :
    (⟨{((0 : ℤ), (2 : ℤ)), ((1 : ℤ), (0 : ℤ)), ((1 : ℤ), (1 : ℤ)),
        ((1 : ℤ), (2 : ℤ))}, 1⟩ : Sentence) ∈
        (observe_all 2 3 [(((0 : ℤ), (1 : ℤ)), 1), (((0 : ℤ), (0 : ℤ)), 0)]).knowledge ∧
      ((1 : ℤ), (0 : ℤ)) ∈
        (observe_all 2 3 [(((0 : ℤ), (1 : ℤ)), 1), (((0 : ℤ), (0 : ℤ)), 0)]).safes ∧
      ((1 : ℤ), (0 : ℤ)) ∈ ({((0 : ℤ), (2 : ℤ)), ((1 : ℤ), (0 : ℤ)), ((1 : ℤ), (1 : ℤ)),
        ((1 : ℤ), (2 : ℤ))} : Finset Cell) := by
  decide

/-- C9 counterexample: on the reachable state after `observe((0,0), 0)` on a
1-by-2 board, `make_random_move` with random draw `(0,0)` returns no move
although the in-bounds cell `(0,1)` is a candidate (neither moved nor a
mine): the loop body returns `None` on the first unsuitable sample instead
of continuing. -/
theorem c9_counterexample :
    ((MinesweeperAI.init 1 2).add_knowledge ((0 : ℤ), (0 : ℤ)) 0).make_random_move 0 0 = none ∧
      ((0 : ℤ), (1 : ℤ)) ∉
        ((MinesweeperAI.init 1 2).add_knowledge ((0 : ℤ), (0 : ℤ)) 0).moves_made ∧
      ((0 : ℤ), (1 : ℤ)) ∉
        ((MinesweeperAI.init 1 2).add_knowledge ((0 : ℤ), (0 : ℤ)) 0).mines ∧
      inRange 1 2 ((0 : ℤ), (1 : ℤ)) := by
  decide

/-- C9 amended: `make_random_move` examines only its single random sample
`(i, j)`: any returned cell is that sample and is a valid candidate (not in
`movesMade`, not in `confirmedMine`); when the sample is unsuitable the
function reports no move even if candidates exist. -/
theorem c9_returned_cell_is_candidate (s : MinesweeperAI) (i j : ℤ) (c : Cell)
    (h : s.make_random_move i j = some c) :
    c = (i, j) ∧ c ∉ s.moves_made ∧ c ∉ s.mines := by
  unfold MinesweeperAI.make_random_move at h
  split_ifs at h with hc
  · cases h
    exact ⟨rfl, hc.1, hc.2⟩

/-- C9 witness: on the fresh 1-by-2 AI with sample `(0,0)`,
`make_random_move` returns `(0,0)`, which is indeed a candidate. -/
theorem c9_witness :
    ((0 : ℤ), (0 : ℤ)) = (((0 : ℤ), (0 : ℤ)) : Cell) ∧
      (((0 : ℤ), (0 : ℤ)) : Cell) ∉ (MinesweeperAI.init 1 2).moves_made ∧
      (((0 : ℤ), (0 : ℤ)) : Cell) ∉ (MinesweeperAI.init 1 2).mines :=
  c9_returned_cell_is_candidate (MinesweeperAI.init 1 2) 0 0 ((0 : ℤ), (0 : ℤ)) (by decide)

end ObserveClaims

section SubsetResolution

/-- Helper: `subset_pair` never removes anything from the knowledge base. -/
theorem subset_pair_mono {x : Sentence} (sen1 sen2 : Sentence)
    {kb : List Sentence} (h : x ∈ kb) : x ∈ subset_pair sen1 sen2 kb := by
  simp only [subset_pair]
  split_ifs <;> first | exact h | exact List.mem_append_left _ h

/-- Helper: `subset_inner` never removes anything from the knowledge base. -/
theorem subset_inner_mono {x : Sentence} (sen1 : Sentence) :
    ∀ (l kb : List Sentence), x ∈ kb → x ∈ subset_inner sen1 l kb := by
  intro l
  induction l with
  | nil => intro kb h; exact h
  | cons sen2 rest ih =>
      intro kb h
      exact ih _ (subset_pair_mono sen1 sen2 h)

/-- Helper: `subset_outer` never removes anything from the knowledge base. -/
theorem subset_outer_mono {x : Sentence} :
    ∀ (revl kb : List Sentence), x ∈ kb → x ∈ subset_outer revl kb := by
  intro revl
  induction revl with
  | nil => intro kb h; exact h
  | cons sen1 rest ih =>
      intro kb h
      simp only [subset_outer]
      split_ifs with hskip
      · exact ih _ h
      · exact ih _ (subset_inner_mono sen1 _ _ h)

/-- Helper: when one of `sen1`, `sen2` has cells strictly contained in the
other's, `subset_pair` leaves (or puts) the difference statement in the
knowledge base. -/
theorem subset_pair_derives {sen1 sen2 sub sup : Sentence}
    (hor : (sub = sen1 ∧ sup = sen2) ∨ (sub = sen2 ∧ sup = sen1))
    (hss : sub.cells ⊂ sup.cells) (kb : List Sentence) :
    (⟨sup.cells \ sub.cells, sup.count - sub.count⟩ : Sentence) ∈
      subset_pair sen1 sen2 kb := by
  have hns : ¬ sup.cells ⊆ sub.cells := (Finset.ssubset_def.mp hss).2
  have hne : sup.cells \ sub.cells ≠ ∅ := by
    rw [Ne, Finset.sdiff_eq_empty_iff_subset]
    exact hns
  obtain ⟨rfl, rfl⟩ | ⟨rfl, rfl⟩ := hor
  · simp only [subset_pair]
    rw [if_pos hss.subset]
    split_ifs with h
    · simp
    · rcases not_and_or.mp h with h' | h'
      · exact absurd hne (by simpa using h')
      · simpa using h'
  · simp only [subset_pair]
    rw [if_neg hns, if_pos hss.subset]
    split_ifs with h
    · simp
    · rcases not_and_or.mp h with h' | h'
      · exact absurd hne (by simpa using h')
      · simpa using h'

/-- Helper: if `sen2` is in the copied list, the difference statement of a
strict-subset pair `(sen1, sen2)` ends up in the result of `subset_inner`. -/
theorem subset_inner_derives {sen1 sub sup : Sentence} (sen2 : Sentence)
    (hor : (sub = sen1 ∧ sup = sen2) ∨ (sub = sen2 ∧ sup = sen1))
    (hss : sub.cells ⊂ sup.cells) :
    ∀ (l kb : List Sentence), sen2 ∈ l →
      (⟨sup.cells \ sub.cells, sup.count - sub.count⟩ : Sentence) ∈
        subset_inner sen1 l kb := by
  intro l
  induction l with
  | nil => intro kb h; cases h
  | cons a rest ih =>
      intro kb h
      simp only [subset_inner]
      rcases List.mem_cons.mp h with rfl | hmem
      · exact subset_inner_mono sen1 _ _ (subset_pair_derives hor hss kb)
      · exact ih _ hmem

/-- Helper: if the reversed copy decomposes as `P ++ sen1 :: R` with `sen1`
non-empty and of nonzero count, and `sen2 ∈ R`, then the difference
statement of a strict-subset pair is in the result of `subset_outer`. -/
theorem subset_outer_derives {sen1 sen2 sub sup : Sentence}
    (hor : (sub = sen1 ∧ sup = sen2) ∨ (sub = sen2 ∧ sup = sen1))
    (hss : sub.cells ⊂ sup.cells)
    (hne : sen1.cells ≠ ∅) (hc0 : sen1.count ≠ 0) :
    ∀ (P R kb : List Sentence), sen2 ∈ R →
      (⟨sup.cells \ sub.cells, sup.count - sub.count⟩ : Sentence) ∈
        subset_outer (P ++ sen1 :: R) kb := by
  intro P
  induction P with
  | nil =>
      intro R kb hmem
      simp only [List.nil_append, subset_outer]
      rw [if_neg (by push_neg; exact ⟨hne, hc0⟩)]
      exact subset_outer_mono _ _
        (subset_inner_derives sen2 hor hss _ _ (List.mem_reverse.mpr hmem))
  | cons p rest ih =>
      intro R kb hmem
      simp only [List.cons_append, subset_outer]
      exact ih R _ hmem

/-- C5 counterexample: after the honest observations `((0,1),1)`,
`((0,0),1)`, `((1,2),0)` on a 2-by-3 board (mine at `(1,0)`), the statements
`A = {(0,2),(1,1)} = 0` and `B = {(0,2),(1,0),(1,1)} = 1` are both live with
`A.cells ⊂ B.cells`, yet the difference statement `{(1,0)} = 1` is nowhere
in the knowledge base and `(1,0)` is in neither confirmed set: the pair was
skipped because the later-indexed statement `A` has count 0. -/
theorem c5_counterexample :
    (⟨{((0 : ℤ), (2 : ℤ)), ((1 : ℤ), (1 : ℤ))}, 0⟩ : Sentence) ∈
        (observe_all 2 3 [(((0 : ℤ), (1 : ℤ)), 1), (((0 : ℤ), (0 : ℤ)), 1),
          (((1 : ℤ), (2 : ℤ)), 0)]).knowledge ∧
      (⟨{((0 : ℤ), (2 : ℤ)), ((1 : ℤ), (0 : ℤ)), ((1 : ℤ), (1 : ℤ))}, 1⟩ : Sentence) ∈
        (observe_all 2 3 [(((0 : ℤ), (1 : ℤ)), 1), (((0 : ℤ), (0 : ℤ)), 1),
          (((1 : ℤ), (2 : ℤ)), 0)]).knowledge ∧
      ({((0 : ℤ), (2 : ℤ)), ((1 : ℤ), (1 : ℤ))} : Finset Cell) ⊂
        {((0 : ℤ), (2 : ℤ)), ((1 : ℤ), (0 : ℤ)), ((1 : ℤ), (1 : ℤ))} ∧
      (⟨{((1 : ℤ), (0 : ℤ))}, 1⟩ : Sentence) ∉
        (observe_all 2 3 [(((0 : ℤ), (1 : ℤ)), 1), (((0 : ℤ), (0 : ℤ)), 1),
          (((1 : ℤ), (2 : ℤ)), 0)]).knowledge ∧
      ((1 : ℤ), (0 : ℤ)) ∉
        (observe_all 2 3 [(((0 : ℤ), (1 : ℤ)), 1), (((0 : ℤ), (0 : ℤ)), 1),
          (((1 : ℤ), (2 : ℤ)), 0)]).mines ∧
      ((1 : ℤ), (0 : ℤ)) ∉
        (observe_all 2 3 [(((0 : ℤ), (1 : ℤ)), 1), (((0 : ℤ), (0 : ℤ)), 1),
          (((1 : ℤ), (2 : ℤ)), 0)]).safes := by
  decide

/-- C5 amended: for a pair of distinct live statements at positions
`i < j` of the statement list entering the subset-resolution step, one of
whose cell sets is a strict subset of the other's, the difference statement
`(sup.cells - sub.cells, sup.count - sub.count)` is present after the step,
*provided* the later-indexed statement of the pair has a non-empty cell set
and nonzero count (the step pops statements from the end and skips a popped
statement that is empty or has count 0, so such pairs derive nothing).
Derived statements are computed over the stable copied snapshot and added
only when non-empty and not already present, which still leaves the
difference statement present. -/
theorem c5_guarded_subset_law (K : List Sentence) (i j : ℕ) (hij : i < j)
    (hj : j < K.length) (sub sup : Sentence)
    (hor : (sub = K.get ⟨i, lt_trans hij hj⟩ ∧ sup = K.get ⟨j, hj⟩) ∨
           (sub = K.get ⟨j, hj⟩ ∧ sup = K.get ⟨i, lt_trans hij hj⟩))
    (hss : sub.cells ⊂ sup.cells)
    (hne : (K.get ⟨j, hj⟩).cells ≠ ∅) (hc0 : (K.get ⟨j, hj⟩).count ≠ 0) :
    (⟨sup.cells \ sub.cells, sup.count - sub.count⟩ : Sentence) ∈
      subset_step K := by
  have hdecomp : K.reverse =
      (K.drop (j + 1)).reverse ++ K.get ⟨j, hj⟩ :: (K.take j).reverse := by
    conv_lhs => rw [← List.take_append_drop j K]
    rw [List.reverse_append, List.drop_eq_getElem_cons hj, List.reverse_cons,
        List.append_assoc]
    simp [List.get_eq_getElem]
  have hmem : K.get ⟨i, lt_trans hij hj⟩ ∈ (K.take j).reverse := by
    rw [List.mem_reverse]
    have hlen : i < (K.take j).length := by
      simp only [List.length_take]
      omega
    have h1 : (K.take j).get ⟨i, hlen⟩ ∈ K.take j := List.get_mem _ _ hlen
    have h2 : (K.take j).get ⟨i, hlen⟩ = K.get ⟨i, lt_trans hij hj⟩ := by
      simp [List.get_eq_getElem, List.getElem_take']
    rwa [h2] at h1
  unfold subset_step
  rw [hdecomp]
  exact subset_outer_derives (Or.symm hor) hss hne hc0 _ _ _ hmem

/-- C5 witness: in the list `[{(0,0),(0,1)} = 1, {(0,0)} = 1]` the second
statement's cells are a strict subset of the first's and it is non-empty with
nonzero count, so after the subset step the difference `{(0,1)} = 0` is
present. -/
theorem c5_witness :
    (⟨{((0 : ℤ), (1 : ℤ))}, 0⟩ : Sentence) ∈
      subset_step [⟨{((0 : ℤ), (0 : ℤ)), ((0 : ℤ), (1 : ℤ))}, 1⟩,
        ⟨{((0 : ℤ), (0 : ℤ))}, 1⟩] := by
  have h := c5_guarded_subset_law
    [⟨{((0 : ℤ), (0 : ℤ)), ((0 : ℤ), (1 : ℤ))}, 1⟩, ⟨{((0 : ℤ), (0 : ℤ))}, 1⟩]
    0 1 (by decide) (by decide)
    ⟨{((0 : ℤ), (0 : ℤ))}, 1⟩ ⟨{((0 : ℤ), (0 : ℤ)), ((0 : ℤ), (1 : ℤ))}, 1⟩
    (Or.inr ⟨rfl, rfl⟩) (by decide) (by decide) (by decide)
  simpa using h

end SubsetResolution

section Soundness

/-- A sentence is balanced when it can only be "all mines" trivially: if its
count equals its cell-count then both are zero.  Every sentence emerging from
the inference loop has this shape, which is why line 289 of the source (the
purge branch for `len(cells) == count` with nonzero count) is dead and the
observed cell is never pushed into `self.mines` there. -/
def balanced (s : Sentence) : Prop :=
  (s.cells.card : ℤ) = s.count → s.count = 0

/-- The knowledge base is sound for the mine set `M`: confirmed mines are
real mines, confirmed safes are real non-mines, and every sentence's count
is the number of its cells that are mines. -/
def Sound (M : Finset Cell) (s : MinesweeperAI) : Prop :=
  s.mines ⊆ M ∧ (∀ c ∈ s.safes, c ∉ M) ∧ ∀ sen ∈ s.knowledge, consistent M sen

/-- Helper: a consistent sentence reporting known mines reports only real
mines. -/
theorem known_mines_sound {M : Finset Cell} {s : Sentence}
    (hc : consistent M s) : (s.known_mines.getD ∅) ⊆ M := by
  unfold Sentence.known_mines
  split_ifs with h1 h2
  · simp
  · have hsub : s.cells ∩ M ⊆ s.cells := Finset.inter_subset_left
    have hcard : s.cells.card ≤ (s.cells ∩ M).card := by
      unfold consistent at hc
      omega
    have heq : s.cells ∩ M = s.cells := Finset.eq_of_subset_of_card_le hsub hcard
    intro x hx
    simp only [Option.getD_some] at hx
    have : x ∈ s.cells ∩ M := heq.symm ▸ hx
    exact (Finset.mem_inter.mp this).2
  · simp

/-- Helper: a consistent sentence reporting known safes reports only
non-mines. -/
theorem known_safes_sound {M : Finset Cell} {s : Sentence}
    (hc : consistent M s) : ∀ c ∈ (s.known_safes.getD ∅), c ∉ M := by
  unfold Sentence.known_safes
  split_ifs with h1 h2
  · simp
  · intro c hc' hM
    simp only [Option.getD_some] at hc'
    unfold consistent at hc
    rw [h2] at hc
    have : s.cells ∩ M = ∅ := Finset.card_eq_zero.mp (by omega)
    exact absurd (Finset.mem_inter.mpr ⟨hc', hM⟩) (by simp [this])
  · simp

/-- Helper: removing a set of real mines from a consistent sentence
(the effect of `for mine in self.mines: sen.mark_mine(mine)`) keeps it
consistent. -/
theorem consistent_drain {M : Finset Cell} {s : Sentence} {ms : Finset Cell}
    (hms : ms ⊆ M) (hc : consistent M s) :
    consistent M ⟨s.cells \ ms, s.count - ((s.cells ∩ ms).card : ℤ)⟩ := by
  unfold consistent at *
  have h1 : (s.cells \ ms) ∩ M = (s.cells ∩ M) \ ms := by
    ext x
    simp only [Finset.mem_inter, Finset.mem_sdiff]
    tauto
  have h2 : (s.cells ∩ M) ∩ ms = s.cells ∩ ms := by
    ext x
    simp only [Finset.mem_inter]
    exact ⟨fun h => ⟨h.1.1, h.2⟩, fun h => ⟨⟨h.1, hms h.2⟩, h.2⟩⟩
  have h3 : ((s.cells ∩ M) \ ms).card + ((s.cells ∩ M) ∩ ms).card
      = (s.cells ∩ M).card := Finset.card_sdiff_add_card_inter _ _
  rw [h1] at *
  rw [h2] at h3
  simp only [Sentence.count, Sentence.cells]
  omega

/-- Helper: the sentence produced by the drain at the end of one inference
iteration is balanced, provided the drained set includes the sentence's own
`known_mines` report. -/
theorem balanced_drain (s : Sentence) (ms : Finset Cell)
    (hms : (s.known_mines.getD ∅) ⊆ ms) :
    balanced ⟨s.cells \ ms, s.count - ((s.cells ∩ ms).card : ℤ)⟩ := by
  intro h
  simp only [Sentence.count, Sentence.cells] at *
  have hsplit : (s.cells \ ms).card + (s.cells ∩ ms).card = s.cells.card :=
    Finset.card_sdiff_add_card_inter _ _
  have hfull : (s.cells.card : ℤ) = s.count := by omega
  by_cases h0 : s.count = 0
  · omega
  · have hkm : s.known_mines = some s.cells := by
      unfold Sentence.known_mines
      rw [if_neg h0, if_pos hfull]
    have hsub : s.cells ⊆ ms := by
      rw [hkm] at hms
      simpa using hms
    have : s.cells ∩ ms = s.cells := Finset.inter_eq_left.mpr hsub
    rw [this] at hsplit h ⊢
    omega

/-- Helper: the inference loop (lines 249-270) preserves soundness and makes
every sentence balanced. -/
theorem infer_loop_sound {M : Finset Cell} {cell : Cell} (hcell : cell ∉ M) :
    ∀ (l : List Sentence) (mines safes : Finset Cell),
      mines ⊆ M → (∀ c ∈ safes, c ∉ M) → (∀ sen ∈ l, consistent M sen) →
      (infer_loop cell l mines safes).2.1 ⊆ M ∧
        (∀ c ∈ (infer_loop cell l mines safes).2.2, c ∉ M) ∧
        (∀ sen ∈ (infer_loop cell l mines safes).1, consistent M sen ∧ balanced sen) := by
  intro l
  induction l with
  | nil =>
      intro mines safes hm hs _
      exact ⟨hm, hs, by simp [infer_loop]⟩
  | cons sen rest ih =>
      intro mines safes hm hs hl
      have hsen : consistent M sen := hl sen (List.mem_cons_self sen rest)
      have hs1 : consistent M (sen.mark_safe cell) := consistent_mark_safe hcell hsen
      have hm1 : mines ∪ ((sen.mark_safe cell).known_mines.getD ∅) ⊆ M :=
        Finset.union_subset hm (known_mines_sound hs1)
      have hsf1 : ∀ c ∈ safes ∪ ((sen.mark_safe cell).known_safes.getD ∅), c ∉ M := by
        intro c hc
        rcases Finset.mem_union.mp hc with h | h
        · exact hs c h
        · exact known_safes_sound hs1 c h
      have hrest := ih _ _ hm1 hsf1
        (fun x hx => hl x (List.mem_cons_of_mem sen hx))
      simp only [infer_loop]
      refine ⟨hrest.1, hrest.2.1, ?_⟩
      intro x hx
      rcases List.mem_cons.mp hx with rfl | hx'
      · exact ⟨consistent_drain hm1 hs1,
          balanced_drain (sen.mark_safe cell) _ Finset.subset_union_right⟩
      · exact hrest.2.2 x hx'

/-- Helper: the purge loop preserves soundness when its input sentences are
consistent and balanced (balancedness keeps the `len(cells) == count`
branch — which would wrongly flag the observed cell as a mine — dead). -/
theorem purge_loop_sound {M : Finset Cell} (cell : Cell) :
    ∀ (l : List Sentence) (mines safes : Finset Cell),
      mines ⊆ M → (∀ c ∈ safes, c ∉ M) →
      (∀ sen ∈ l, consistent M sen ∧ balanced sen) →
      (purge_loop cell l mines safes).2.1 ⊆ M ∧
        (∀ c ∈ (purge_loop cell l mines safes).2.2, c ∉ M) ∧
        (∀ sen ∈ (purge_loop cell l mines safes).1, consistent M sen) := by
  intro l
  induction l with
  | nil =>
      intro mines safes hm hs _
      exact ⟨hm, hs, by simp [purge_loop]⟩
  | cons sen rest ih =>
      intro mines safes hm hs hl
      have hsen := hl sen (List.mem_cons_self sen rest)
      have hrestc : ∀ x ∈ rest, consistent M x ∧ balanced x :=
        fun x hx => hl x (List.mem_cons_of_mem sen hx)
      simp only [purge_loop]
      split_ifs with h1 h2 h3
      · refine ⟨hm, ?_, fun x hx => (hrestc x hx).1⟩
        intro c hc
        rcases Finset.mem_union.mp hc with h | h
        · exact hs c h
        · intro hM
          have hcon := hsen.1
          unfold consistent at hcon
          rw [h1] at hcon
          have : sen.cells ∩ M = ∅ := Finset.card_eq_zero.mp (by omega)
          exact absurd (Finset.mem_inter.mpr ⟨h, hM⟩) (by simp [this])
      · exact absurd (hsen.2 h2) h1
      · simp [vars_empty] at h3
      · have hr := ih mines safes hm hs hrestc
        refine ⟨hr.1, hr.2.1, ?_⟩
        intro x hx
        rcases List.mem_cons.mp hx with rfl | hx'
        · exact hsen.1
        · exact hr.2.2 x hx'

/-- Helper: closed form of the `check_neighbors` fold over any neighbor
list: the collected cells are the in-bounds cells that are neither safe nor
mine, and the count drops by one for each in-bounds known mine. -/
theorem cn_fold_closed (height width : ℤ) (mines safes : Finset Cell) :
    ∀ (l : List Cell) (cs : Finset Cell) (ct : ℤ),
      l.foldl (cn_step height width mines safes) (cs, ct) =
        (cs ∪ (l.filter (fun n => decide (inRange height width n) &&
            (!decide (n ∈ safes) && !decide (n ∈ mines)))).toFinset,
         ct - ((l.filter (fun n => decide (inRange height width n) &&
            decide (n ∈ mines))).length : ℤ)) := by
  intro l
  induction l with
  | nil => intro cs ct; simp
  | cons n rest ih =>
      intro cs ct
      simp only [List.foldl_cons, List.filter_cons]
      by_cases hr : inRange height width n <;>
        by_cases hsf : n ∈ safes <;>
          by_cases hmn : n ∈ mines <;>
            simp [cn_step, hr, hsf, hmn, ih, Finset.insert_union,
              Finset.union_insert, Prod.mk.injEq] <;>
            omega

/-- Helper: splitting a filter count along a sub-predicate: when `q` implies
`p` on the list, the `p`-count is the `q`-count plus the count of elements
satisfying `p` but not `q`. -/
theorem filter_length_split (p q : Cell → Bool) :
    ∀ l : List Cell, (∀ x ∈ l, q x = true → p x = true) →
      (l.filter p).length =
        (l.filter q).length + (l.filter (fun x => p x && !q x)).length := by
  intro l
  induction l with
  | nil => intro _; simp
  | cons x rest ih =>
      intro h
      have hrest := ih (fun y hy => h y (List.mem_cons_of_mem x hy))
      simp only [List.filter_cons]
      by_cases hq : q x = true
      · have hp := h x (List.mem_cons_self x rest) hq
        simp [hp, hq, hrest]
        omega
      · by_cases hp : p x = true
        · simp [hp, hq, Bool.not_eq_true, hrest]
          omega
        · simp [hp, hq, Bool.not_eq_true, hrest]

/-- Helper: the eight neighbors of a cell are pairwise distinct. -/
theorem neighborArr_nodup (c : Cell) : (neighborArr c).Nodup := by
  simp [neighborArr, List.nodup_cons, List.mem_cons, Prod.ext_iff]
  omega

/-- Helper: the sentence built by `check_neighbors` from the board's true
neighbor-mine count is consistent with the board's mine set, given sound
confirmed sets. -/
theorem check_neighbors_consistent (b : Minesweeper) (mines safes : Finset Cell)
    (hm : mines ⊆ b.mines) (hs : ∀ c ∈ safes, c ∉ b.mines) (cell : Cell) :
    consistent b.mines
      ⟨(check_neighbors b.height b.width mines safes cell (nearby_mines b cell)).1,
       (check_neighbors b.height b.width mines safes cell (nearby_mines b cell)).2⟩ := by
  unfold consistent check_neighbors nearby_mines
  rw [cn_fold_closed]
  simp only [Finset.empty_union, Sentence.cells, Sentence.count]
  set l := neighborArr cell with hl
  set qb : Cell → Bool := fun n => decide (inRange b.height b.width n) &&
    (!decide (n ∈ safes) && !decide (n ∈ mines)) with hqb
  set rb : Cell → Bool := fun n => decide (inRange b.height b.width n) &&
    decide (n ∈ mines) with hrb
  set rbM : Cell → Bool := fun n => decide (inRange b.height b.width n) &&
    decide (n ∈ b.mines) with hrbM
  have himp : ∀ x ∈ l, rb x = true → rbM x = true := by
    intro x _ hx
    simp only [hrb, Bool.and_eq_true, decide_eq_true_eq] at hx
    simp only [hrbM, Bool.and_eq_true, decide_eq_true_eq]
    exact ⟨hx.1, hm hx.2⟩
  have hsplit := filter_length_split rbM rb l himp
  have hcongr : l.filter (fun x => rbM x && !rb x) =
      l.filter (fun x => qb x && decide (x ∈ b.mines)) := by
    apply List.filter_congr
    intro x _
    simp only [hqb, hrb, hrbM]
    by_cases h1 : inRange b.height b.width x <;>
      by_cases h2 : x ∈ b.mines <;>
        by_cases h3 : x ∈ mines <;>
          by_cases h4 : x ∈ safes <;>
            first
              | exact absurd (hm h3) h2
              | exact absurd h2 (hs x h4)
              | simp [h1, h2, h3, h4]
  have hinter : (l.filter qb).toFinset ∩ b.mines =
      (l.filter (fun x => qb x && decide (x ∈ b.mines))).toFinset := by
    ext x
    simp [List.mem_filter]
    tauto
  have hnodup : (l.filter (fun x => qb x && decide (x ∈ b.mines))).Nodup :=
    (neighborArr_nodup cell).filter _
  rw [hinter, List.toFinset_card_of_nodup hnodup, ← hcongr]
  omega

/-- Helper: the difference statement of a subset pair of consistent
sentences is consistent. -/
theorem consistent_diff {M : Finset Cell} {a b : Sentence}
    (ha : consistent M a) (hb : consistent M b) (hab : a.cells ⊆ b.cells) :
    consistent M ⟨b.cells \ a.cells, b.count - a.count⟩ := by
  unfold consistent at *
  have h1 : (b.cells \ a.cells) ∩ M = (b.cells ∩ M) \ (a.cells ∩ M) := by
    ext x
    simp only [Finset.mem_inter, Finset.mem_sdiff]
    tauto
  have h2 : a.cells ∩ M ⊆ b.cells ∩ M :=
    Finset.inter_subset_inter hab (subset_refl M)
  have h3 : ((b.cells ∩ M) \ (a.cells ∩ M)).card =
      (b.cells ∩ M).card - (a.cells ∩ M).card := Finset.card_sdiff h2
  have h4 : (a.cells ∩ M).card ≤ (b.cells ∩ M).card := Finset.card_le_card h2
  simp only [Sentence.cells, Sentence.count]
  rw [h1, h3]
  omega

/-- Helper: `subset_pair` preserves consistency of the knowledge base. -/
theorem subset_pair_consistent {M : Finset Cell} {sen1 sen2 : Sentence}
    (h1 : consistent M sen1) (h2 : consistent M sen2) {kb : List Sentence}
    (hkb : ∀ x ∈ kb, consistent M x) :
    ∀ x ∈ subset_pair sen1 sen2 kb, consistent M x := by
  intro x hx
  simp only [subset_pair] at hx
  split_ifs at hx with c1 c2 c3 c4
  · rcases List.mem_append.mp hx with h | h
    · exact hkb x h
    · rw [List.mem_singleton.mp h]
      exact consistent_diff h1 h2 c1
  · exact hkb x hx
  · rcases List.mem_append.mp hx with h | h
    · exact hkb x h
    · rw [List.mem_singleton.mp h]
      exact consistent_diff h2 h1 c3
  · exact hkb x hx
  · exact hkb x hx

/-- Helper: `subset_inner` preserves consistency of the knowledge base. -/
theorem subset_inner_consistent {M : Finset Cell} {sen1 : Sentence}
    (h1 : consistent M sen1) :
    ∀ (l kb : List Sentence), (∀ x ∈ l, consistent M x) →
      (∀ x ∈ kb, consistent M x) →
      ∀ x ∈ subset_inner sen1 l kb, consistent M x := by
  intro l
  induction l with
  | nil => intro kb _ hkb; exact hkb
  | cons a rest ih =>
      intro kb hl hkb
      simp only [subset_inner]
      exact ih _ (fun x hx => hl x (List.mem_cons_of_mem a hx))
        (subset_pair_consistent h1 (hl a (List.mem_cons_self a rest)) hkb)

/-- Helper: `subset_outer` preserves consistency of the knowledge base. -/
theorem subset_outer_consistent {M : Finset Cell} :
    ∀ (revl kb : List Sentence), (∀ x ∈ revl, consistent M x) →
      (∀ x ∈ kb, consistent M x) →
      ∀ x ∈ subset_outer revl kb, consistent M x := by
  intro revl
  induction revl with
  | nil => intro kb _ hkb; exact hkb
  | cons sen1 rest ih =>
      intro kb hrev hkb
      simp only [subset_outer]
      split_ifs with hskip
      · exact ih _ (fun x hx => hrev x (List.mem_cons_of_mem sen1 hx)) hkb
      · refine ih _ (fun x hx => hrev x (List.mem_cons_of_mem sen1 hx)) ?_
        exact subset_inner_consistent (hrev sen1 (List.mem_cons_self sen1 rest))
          _ _ (fun x hx => hrev x
            (List.mem_cons_of_mem sen1 (List.mem_reverse.mp hx))) hkb

/-- Helper: the subset-resolution step preserves consistency. -/
theorem subset_step_consistent {M : Finset Cell} {kb : List Sentence}
    (hkb : ∀ x ∈ kb, consistent M x) :
    ∀ x ∈ subset_step kb, consistent M x :=
  subset_outer_consistent _ _
    (fun x hx => hkb x (List.mem_reverse.mp hx)) hkb

/-- Helper: soundness of the inference-purge-resolution pipeline of
`add_knowledge`. -/
theorem pipeline_sound {M : Finset Cell} {cell : Cell} (hcell : cell ∉ M)
    (kb1 : List Sentence) (mines safes : Finset Cell)
    (hm : mines ⊆ M) (hs : ∀ c ∈ safes, c ∉ M)
    (hk : ∀ x ∈ kb1, consistent M x) :
    (purge_loop cell (infer_loop cell kb1 mines safes).1
        (infer_loop cell kb1 mines safes).2.1
        (infer_loop cell kb1 mines safes).2.2).2.1 ⊆ M ∧
      (∀ c ∈ (purge_loop cell (infer_loop cell kb1 mines safes).1
        (infer_loop cell kb1 mines safes).2.1
        (infer_loop cell kb1 mines safes).2.2).2.2, c ∉ M) ∧
      (∀ x ∈ subset_step (purge_loop cell (infer_loop cell kb1 mines safes).1
        (infer_loop cell kb1 mines safes).2.1
        (infer_loop cell kb1 mines safes).2.2).1, consistent M x) := by
  have h1 := infer_loop_sound hcell kb1 mines safes hm hs hk
  have h2 := purge_loop_sound cell _ _ _ h1.1 h1.2.1 h1.2.2
  exact ⟨h2.1, h2.2.1, subset_step_consistent h2.2.2⟩

/-- Helper: an honest observation (the observed cell is not a mine and the
count is the board's true neighbor-mine count) preserves soundness of the
knowledge base. -/
theorem add_knowledge_sound (b : Minesweeper) (s : MinesweeperAI)
    (hh : s.height = b.height) (hw : s.width = b.width)
    (hS : Sound b.mines s) {cell : Cell} (hcell : cell ∉ b.mines) :
    Sound b.mines (s.add_knowledge cell (nearby_mines b cell)) := by
  obtain ⟨hm, hs, hk⟩ := hS
  have hm0 : (s.ai_mark_safe cell).mines ⊆ b.mines := hm
  have hs0 : ∀ c ∈ (s.ai_mark_safe cell).safes, c ∉ b.mines := by
    intro c hc
    rcases Finset.mem_insert.mp hc with rfl | h
    · exact hcell
    · exact hs c h
  have hk0 : ∀ sen ∈ (s.ai_mark_safe cell).knowledge, consistent b.mines sen := by
    intro sen hsen
    rcases List.mem_map.mp hsen with ⟨x, hx, rfl⟩
    exact consistent_mark_safe hcell (hk x hx)
  have hk1 : ∀ x ∈ (if (check_neighbors s.height s.width (s.ai_mark_safe cell).mines
        (s.ai_mark_safe cell).safes cell (nearby_mines b cell)).1 ≠ ∅ then
        (s.ai_mark_safe cell).knowledge ++
          [⟨(check_neighbors s.height s.width (s.ai_mark_safe cell).mines
              (s.ai_mark_safe cell).safes cell (nearby_mines b cell)).1,
            (check_neighbors s.height s.width (s.ai_mark_safe cell).mines
              (s.ai_mark_safe cell).safes cell (nearby_mines b cell)).2⟩]
      else (s.ai_mark_safe cell).knowledge), consistent b.mines x := by
    split_ifs with hcn
    · intro x hx
      rcases List.mem_append.mp hx with h | h
      · exact hk0 x h
      · rw [List.mem_singleton.mp h, hh, hw]
        exact check_neighbors_consistent b _ _ hm0 hs0 cell
    · exact hk0
  exact pipeline_sound hcell _ _ _ hm0 hs0 hk1

/-- Helper: `add_knowledge` does not change the board dimensions. -/
theorem add_knowledge_dims (s : MinesweeperAI) (cell : Cell) (count : ℤ) :
    (s.add_knowledge cell count).height = s.height ∧
      (s.add_knowledge cell count).width = s.width :=
  ⟨rfl, rfl⟩

/-- Helper: a sound knowledge base has disjoint confirmed sets. -/
theorem sound_disjoint {M : Finset Cell} {s : MinesweeperAI}
    (h : Sound M s) : s.safes ∩ s.mines = ∅ := by
  ext x
  simp only [Finset.mem_inter, Finset.not_mem_empty, iff_false, not_and]
  intro hsx hmx
  exact h.2.1 x hsx (h.1 hmx)

/-- Helper: folding honest observations from any sound state keeps the
knowledge base sound. -/
theorem fold_observations_sound (b : Minesweeper) :
    ∀ (obs : List (Cell × ℤ)) (s : MinesweeperAI),
      s.height = b.height → s.width = b.width → Sound b.mines s →
      (∀ p ∈ obs, p.1 ∉ b.mines ∧ p.2 = nearby_mines b p.1) →
      Sound b.mines
        (obs.foldl (fun t ck => t.add_knowledge ck.1 ck.2) s) := by
  intro obs
  induction obs with
  | nil => intro s _ _ hS _; exact hS
  | cons p rest ih =>
      intro s hh hw hS hobs
      have hp := hobs p (List.mem_cons_self p rest)
      have hstep : Sound b.mines (s.add_knowledge p.1 p.2) := by
        rw [hp.2]
        exact add_knowledge_sound b s hh hw hS hp.1
      exact ih (s.add_knowledge p.1 p.2) hh hw hstep
        (fun q hq => hobs q (List.mem_cons_of_mem p hq))

/-- C1: for every board and every observation sequence reachable under the
driver protocol of the specification — each observed cell is not a mine and
each count is the board's true neighbor-mine count for that cell — after
every `observe` call the confirmed-safe and confirmed-mine sets are
disjoint (stated for the state after the whole sequence; every prefix of an
honest sequence is honest, so the invariant holds after each call). -/
theorem c1_confirmed_sets_disjoint (b : Minesweeper) (obs : List (Cell × ℤ))
    (hobs : ∀ p ∈ obs, p.1 ∉ b.mines ∧ p.2 = nearby_mines b p.1) :
    (observe_all b.height b.width obs).safes ∩
      (observe_all b.height b.width obs).mines = ∅ := by
  exact sound_disjoint (fold_observations_sound b obs (MinesweeperAI.init b.height b.width)
    rfl rfl ⟨Finset.empty_subset _, by simp [MinesweeperAI.init], by
      simp [MinesweeperAI.init]⟩ hobs)

/-- C1 witness: the honest game on the 2-by-3 board with a mine at `(1,0)`
(observations `((0,1),1)`, `((0,0),1)`, `((1,2),0)`) ends with disjoint
confirmed sets. -/
theorem c1_witness :
    (observe_all (Minesweeper.mk 2 3 {((1 : ℤ), (0 : ℤ))}).height
        (Minesweeper.mk 2 3 {((1 : ℤ), (0 : ℤ))}).width
        [(((0 : ℤ), (1 : ℤ)), 1), (((0 : ℤ), (0 : ℤ)), 1),
         (((1 : ℤ), (2 : ℤ)), 0)]).safes ∩
      (observe_all (Minesweeper.mk 2 3 {((1 : ℤ), (0 : ℤ))}).height
        (Minesweeper.mk 2 3 {((1 : ℤ), (0 : ℤ))}).width
        [(((0 : ℤ), (1 : ℤ)), 1), (((0 : ℤ), (0 : ℤ)), 1),
         (((1 : ℤ), (2 : ℤ)), 0)]).mines = ∅ :=
  c1_confirmed_sets_disjoint (Minesweeper.mk 2 3 {((1 : ℤ), (0 : ℤ))})
    [(((0 : ℤ), (1 : ℤ)), 1), (((0 : ℤ), (0 : ℤ)), 1), (((1 : ℤ), (2 : ℤ)), 0)]
    (by decide)

end Soundness

